import Mathlib

/-!
Verification of the term/link resolver and command extractor of the
pydita-ast XML-to-RST converter, shallowly embedded in Lean.

Python dictionaries are modelled as association lists with key-unique
insert (`dinsert` overwrites the value in place, new keys are appended,
matching CPython dict semantics for lookup and insertion order).
Filesystem reads are modelled by passing each file's content as an
`Option` (with `none` for a missing file), and Python exceptions by
`Except PyErr`.
-/

namespace PyDita

/-- Python exceptions raised by the modelled code paths. -/
inductive PyErr where
  | fileNotFound (msg : String)
  | typeError (msg : String)
  | keyError (k : String)
  | indexError
deriving DecidableEq, Repr

/-- Python `d[k] = v` on a dict: overwrite in place, else append. -/
def dinsert {α : Type} (m : List (String × α)) (k : String) (v : α) :
    List (String × α) :=
  if m.any (fun p => p.1 = k) then
    m.map (fun p => if p.1 = k then (k, v) else p)
  else m ++ [(k, v)]

/-- Python `d.get(k)` / `d[k]` lookup. -/
def dget? {α : Type} (m : List (String × α)) (k : String) : Option α :=
  (m.find? (fun p => p.1 = k)).map (fun p => p.2)

/-- Python `k in d`. -/
def dmem {α : Type} (m : List (String × α)) (k : String) : Bool :=
  m.any (fun p => p.1 = k)

/-! ## version_variables.py -/

/-- `Autogenerateddirectory`: the four attributes backing the Python
properties (`_autogenerated_directory_name`, `_version`, `_base_url`,
`_cmd_base_url`). -/
structure Autogenerateddirectory where
  autogenerated_directory_name : String
  version : String
  base_url : String
  cmd_base_url : String
deriving DecidableEq, Repr

/-- The f-string `f"https://ansyshelp.ansys.com/Views/Secured/corp/v{version}/en/"`. -/
def baseUrlFor (v : String) : String :=
  "https://ansyshelp.ansys.com/Views/Secured/corp/v" ++ v ++ "/en/"

/-- The `version` property setter: assigns `_version` and recomputes
`_base_url`; it does NOT touch `_cmd_base_url`. -/
def setVersion (s : Autogenerateddirectory) (v : String) :
    Autogenerateddirectory :=
  { s with version := v, base_url := baseUrlFor v }

/-- The `base_url` property setter: assigns `_base_url` and recomputes
`_cmd_base_url = f"{base_url}/ans_cmd/"`. -/
def setBaseUrl (s : Autogenerateddirectory) (url : String) :
    Autogenerateddirectory :=
  { s with base_url := url, cmd_base_url := url ++ "/ans_cmd/" }

/-- The `cmd_base_url` property setter. -/
def setCmdBaseUrl (s : Autogenerateddirectory) (url : String) :
    Autogenerateddirectory :=
  { s with cmd_base_url := url }

/-- `Autogenerateddirectory.__init__(terms)` given the already looked up
`terms["ansys_internal_version"]`: the constructor assigns
`version`, `base_url` and `cmd_base_url` through their property setters
in that order (starting from unset backing fields, modelled as `""`). -/
def mkAutogenerateddirectory (ansysInternalVersion : String) :
    Autogenerateddirectory :=
  let s0 : Autogenerateddirectory :=
    { autogenerated_directory_name := "pyconverter.generatedcommands"
      version := ""
      base_url := ""
      cmd_base_url := "" }
  let s1 := setVersion s0 ansysInternalVersion
  let s2 := setBaseUrl s1 (baseUrlFor s1.version)
  setCmdBaseUrl s2 (s2.base_url ++ "/ans_cmd/")

/-! ## Regex-capture helpers

The entity files use a non-standard declaration syntax read with
`re.findall` line by line.  The handful of patterns used by the source
(`pre(\S*)post`, `pre(.*)post`, lookaround `(?<=pre)(.*?)(?=post)`) are
implemented directly over character lists, including the greedy/lazy
backtracking behaviour of CPython `re` on such patterns. -/

/-- The apostrophe character (ASCII 39). -/
def squote : Char := Char.ofNat 39

/-- The apostrophe as a one-character string. -/
def sq : String := String.mk [squote]

/-- Index of the last occurrence of `c` in `cs`. -/
def lastIdxOf (c : Char) (cs : List Char) : Option Nat :=
  ((List.range cs.length).filter (fun i => cs[i]? = some c)).getLast?

/-- Match `(\S*)post` at the start of `tail` and return the capture:
`\S*` may take any prefix of the leading non-whitespace run, and greedy
matching picks the longest prefix after which the literal `post` matches. -/
def greedyCap (tail post : List Char) : Option (List Char) :=
  let run := tail.takeWhile (fun ch => !ch.isWhitespace)
  (((List.range (run.length + 1)).reverse).find?
      (fun i => post.isPrefixOf (tail.drop i))).map (fun i => tail.take i)

/-- First match of `pre(\S*)post` in a line (Python `re.findall(...)[0]`):
start positions are scanned left to right; at each, the literal `pre`,
a greedy non-whitespace capture, then the literal `post` must match. -/
def reCapFirst (pre post : List Char) : List Char → Option (List Char)
  | [] => none
  | c :: rest =>
      match (if pre.isPrefixOf (c :: rest)
             then greedyCap ((c :: rest).drop pre.length) post
             else none) with
      | some cap => some cap
      | none => reCapFirst pre post rest

/-- First match of `pre(.*)post` in a line: earliest occurrence of the
literal `pre`, then a greedy capture running to the last position where
the literal `post` still matches. -/
def greedyAnyCap (pre post cs : List Char) : Option (List Char) :=
  (List.range (cs.length + 1)).findSome? (fun p =>
    if pre.isPrefixOf (cs.drop p) then
      (((List.range (cs.length + 1)).reverse).find?
          (fun i => post.isPrefixOf (cs.drop (p + pre.length + i)))).map
        (fun i => (cs.drop (p + pre.length)).take i)
    else none)

/-- First match of the lookaround pattern `(?<=pre)(.*?)(?=post)`:
earliest position preceded by the literal `pre`, then the shortest
capture after which the literal `post` matches. -/
def lazyCap (pre post cs : List Char) : Option (List Char) :=
  (List.range (cs.length + 1)).findSome? (fun p =>
    if pre.length ≤ p ∧ pre.isPrefixOf (cs.drop (p - pre.length)) then
      ((List.range (cs.length + 1)).find?
          (fun i => post.isPrefixOf (cs.drop (p + i)))).map
        (fun i => (cs.drop p).take i)
    else none)

/-- `re.findall(r"!ENTITY (\S*) ", line)[0]`: the declared entity name. -/
def findEntityName (line : String) : Option String :=
  (reCapFirst "!ENTITY ".data [' '] line.data).map String.mk

/-! ## load_xml_doc.load_fcache -/

/-- Python `Path(name).with_suffix("").name`: drop the last dot-suffix,
where a dot at index `0` (hidden file) or at the very end does not count
as starting a suffix. -/
def withoutSuffix (name : String) : String :=
  let cs := name.data
  match lastIdxOf '.' cs with
  | some i => if 0 < i ∧ i + 1 < cs.length then String.mk (cs.take i) else name
  | none => name

/-- The loop body of `load_fcache`.  Each globbed entry is a file name
paired with the result of `Path.is_file()`; a non-regular entry raises
`FileNotFoundError` before anything is cached for it. -/
def fcacheLoop (acc : List (String × String)) :
    List (String × Bool) → Except PyErr (List (String × String))
  | [] => .ok acc
  | f :: rest =>
      if f.2 then fcacheLoop (dinsert acc (withoutSuffix f.1) f.1) rest
      else .error (.fileNotFound ("Unable to locate " ++ withoutSuffix f.1))

/-- `load_fcache(graph_path)`: the directory scan is modelled by the list
of globbed entries in enumeration order, each tagged with `is_file()`. -/
def load_fcache (files : List (String × Bool)) :
    Except PyErr (List (String × String)) :=
  fcacheLoop [] files

/-! ## load_xml_doc.load_links -/

/-- Modelled from the spec: the `ast_tree.Element` wrapper iterated by
`grab_links` is not among the sources at hand; the spec's DocumentNode —
a tag, attributes (string to string), ordered children each a node or a
text fragment, plus the rendered text `str(node)` — is taken as the node
model, with `get`, child iteration, `has_children` and indexing as the
obvious operations on it. -/
inductive XItem where
  | el (tag : String) (attrs : List (String × String)) (stext : String)
      (children : List XItem) : XItem
  | txt (s : String) : XItem
deriving Repr

/-- Element attribute lookup (`node.get(attr)`); nothing on a text fragment. -/
def XItem.get (attr : String) : XItem → Option String
  | .el _ attrs _ _ => dget? attrs attr
  | .txt _ => none

/-- Ordered children; a text fragment has none. -/
def XItem.children : XItem → List XItem
  | .el _ _ _ cs => cs
  | .txt _ => []

/-- Element tag; a text fragment has no tag (modelled as `""`, which never
equals the `"ttl"` tag tested by `grab_links`). -/
def XItem.tag : XItem → String
  | .el t _ _ _ => t
  | .txt _ => ""

/-- `str(node)`: the rendered text of an element, or the fragment itself. -/
def XItem.stext : XItem → String
  | .el _ _ st _ => st
  | .txt s => s

/-- The `text` recorded by `grab_links`:
`str(linkmap[0])` when `linkmap[0].tag == "ttl"`, else `""`. -/
def ttlText (parent : XItem) : String :=
  match parent.children.head? with
  | some f => if f.tag = "ttl" then f.stext else ""
  | none => ""

/-- One link-table entry value: `(root_name, root_title, href, text)`. -/
abbrev LinkVal := String × String × String × String

/-- The links mapping built by `load_links`. -/
abbrev Links := List (String × LinkVal)

mutual
/-- The recursive closure `grab_links(linkmap)` of `load_links`, with the
mutated outer dict made an explicit accumulator.  For every child `item`
of `linkmap` that is an element: recurse first when the child itself has
children, then record `links[linkmap.get("targetptr")] = (root_name,
root_title, item.get("href"), text)` when the PARENT has a `targetptr`
attribute and the child an `href` attribute. -/
def grab_links (rn rt : String) : XItem → Links → Links
  | .txt _, acc => acc
  | .el t a s cs, acc => grabChildren rn rt (.el t a s cs) cs acc

/-- The `for item in linkmap` loop of `grab_links`. -/
def grabChildren (rn rt : String) (parent : XItem) (items : List XItem)
    (acc : Links) : Links :=
  match items with
  | [] => acc
  | item :: rest =>
    match item with
    | .txt _ => grabChildren rn rt parent rest acc
    | .el tag attrs st cs =>
      let acc1 := if cs.isEmpty then acc
                  else grab_links rn rt (.el tag attrs st cs) acc
      let acc2 :=
        match dget? attrs "href", parent.get "targetptr" with
        | some href, some tp => dinsert acc1 tp (rn, rt, href, ttlText parent)
        | _, _ => acc1
      grabChildren rn rt parent rest acc2
end

/-- `load_links(link_path)`: each `*.db` file is the pair of its file name
and its parse result (`none` when `lxml` raises `ParserError`, in which
case the file is skipped).  A parseable file with no children makes
`linkmap[0]` raise `IndexError`. -/
def load_links (files : List (String × Option XItem)) : Except PyErr Links :=
  files.foldlM (fun links f =>
    match f.2 with
    | none => .ok links
    | some root =>
        match root.children.head? with
        | none => .error .indexError
        | some first =>
            .ok (grab_links (withoutSuffix f.1) first.stext root links)) []

/-! ## load_xml_doc.load_docu_global -/

/-- One docu_global entry: `(targetdoc, targetptr, citetitle)`, each
`None` when its pattern does not occur on the declaration line. -/
abbrev DocuVal := Option String × Option String × Option String

/-- The mapping returned by `load_docu_global`. -/
abbrev DocuGlobal := List (String × DocuVal)

/-- One line of the hand-rolled interpreter of `load_docu_global`:
a line declaring an entity records `(targetdoc, targetptr, citetitle)`. -/
def parseDocuLine (m : DocuGlobal) (line : String) : DocuGlobal :=
  match findEntityName line with
  | none => m
  | some name =>
      let targetdoc := (reCapFirst "targetdoc=\"".data ['"'] line.data).map String.mk
      let targetptr := (reCapFirst "targetptr=\"".data ['"'] line.data).map String.mk
      let citetitle :=
        (reCapFirst "<citetitle>&".data ";</citetitle>".data line.data).map String.mk
      dinsert m name (targetdoc, targetptr, citetitle)

/-- `load_docu_global(term_path)`: the function opens
`term_path/glb/docu_global.ent` with no existence check, so a missing
file raises `FileNotFoundError`; otherwise each line is interpreted. -/
def load_docu_global (file : Option (List String)) : Except PyErr DocuGlobal :=
  match file with
  | none => .error (.fileNotFound "docu_global.ent")
  | some lines => .ok (lines.foldl parseDocuLine [])

/-! ## load_xml_doc.load_terms -/

/-- A value of the terms table: a substitution string, or the
`[classname, typename]` pair stored by the group-code stage. -/
inductive TermVal where
  | str (s : String)
  | pair (classname typename : String)
deriving DecidableEq, Repr

/-- The terms mapping built by `load_terms`. -/
abbrev Terms := List (String × TermVal)

/-- Python `f"{v}"` for a terms value: a string formats as itself, a
two-element list of strings as `str` of that list. -/
def TermVal.format : TermVal → String
  | .str s => s
  | .pair a b => "[" ++ sq ++ a ++ sq ++ ", " ++ sq ++ b ++ sq ++ "]"

/-- One line of the variable-terms stage: entity name via
`!ENTITY (\S*) `, value via the first match of `'(\S*)'`. -/
def parseVariableLine (m : Terms) (line : String) : Terms :=
  match findEntityName line with
  | none => m
  | some name =>
      match reCapFirst [squote] [squote] line.data with
      | some cap => dinsert m name (.str (String.mk cap))
      | none => m

/-- The key/value one global-terms line writes, if any: entity name via
`!ENTITY (\S*) `, value via the first match of `'(.*)'`. -/
def globalEntry (line : String) : Option (String × TermVal) :=
  match findEntityName line with
  | none => none
  | some name =>
      match greedyAnyCap [squote] [squote] line.data with
      | some cap => some (name, .str (String.mk cap))
      | none => none

/-- One line of the global-terms stage: the write it performs, if any. -/
def parseGlobalLine (m : Terms) (line : String) : Terms :=
  match globalEntry line with
  | some (k, v) => dinsert m k v
  | none => m

/-- The value of the LAST global-terms line writing key `k`, if any
(later lines overwrite earlier ones). -/
def lastWrite (k : String) : List String → Option TermVal
  | [] => none
  | line :: rest =>
      match lastWrite k rest with
      | some v => some v
      | none =>
          match globalEntry line with
          | some (k', v) => if k' = k then some v else none
          | none => none

/-- The terms contributed by the global-terms file alone: the
global-terms loop run on an empty table. -/
def globalContribution (lines : List String) : Terms :=
  lines.foldl parseGlobalLine []

/-- The block of hand-coded term constants written unconditionally after
the global-terms stage (math symbols and character codes). -/
def hardcodedTerms (m : Terms) : Terms :=
  [("sgr", ":math:`\\sigma`"), ("gt", ":math:`\\sigma`"),
   ("thgr", ":math:`<`"), ("phgr", ":math:`<`"),
   ("ngr", ":math:`\\phi`"), ("agr", ":math:`\\alpha`"),
   ("OHgr", ":math:`\\Omega`"), ("phis", ":math:`\\phi`"),
   ("thetas", ":math:`\\theta`"),
   ("#13", "#13"), ("#160", "nbsp"), ("#215", "times"),
   ("#934", ":math:`\\Phi`")].foldl
    (fun t p => dinsert t p.1 (.str p.2)) m

/-- `var.Autogenerateddirectory(terms)`: looks up
`terms["ansys_internal_version"]` (a `KeyError` when absent) and runs the
constructor on it. -/
def mkVersionVariables (terms : Terms) : Except PyErr Autogenerateddirectory :=
  match dget? terms "ansys_internal_version" with
  | none => .error (.keyError "ansys_internal_version")
  | some v => .ok (mkAutogenerateddirectory v.format)

/-- Python `terms.get(cite_title, root_title)` followed by `f"{...}"`
formatting of the looked-up value, where `cite_title` may be `None`. -/
def citeText (terms : Terms) (cite_title : Option String)
    (root_title : String) : String :=
  match cite_title with
  | some c =>
      match dget? terms c with
      | some v => v.format
      | none => root_title
  | none => root_title

/-- The replacement callback `term_replacer(match)` defined inside the
manuals stage of `load_terms`, given `term = match.group()[1:-1]`. When
`term` is a `docu_global` key it tries to build a formatted cross-link;
if the stored `targetptr` is `None` or not a `links` key, the function
falls off its `if` without a `return`, i.e. yields Python `None`.
Otherwise the `terms` table is consulted and an unknown reference
reproduces `match.group()` verbatim. -/
def term_replacer (docu_global : DocuGlobal) (links : Links) (terms : Terms)
    (base_url : String) (term : String) : Option TermVal :=
  match dget? docu_global term with
  | some (_targetdoc, tp, cite_title) =>
      match tp with
      | some key =>
          match dget? links key with
          | some (root_name, root_title, href, _text) =>
              let link := base_url ++ root_name ++ "/" ++ href
              let link_text := citeText terms cite_title root_title
              some (.str ("`" ++ link_text ++ " <" ++ link ++ ">`_"))
          | none => none
      | none => none
  | none =>
      match dget? terms term with
      | none => some (.str ("&" ++ term ++ ";"))
      | some v => some v

/-- `re.sub(r"&[\S]*;", repl, text)` where the callback may return a
string, a non-string value or Python `None`; the last two make `re.sub`
raise `TypeError`.  Greedy `[\S]*` extends each match from an `&` to the
last `;` inside the following non-whitespace run.  The `Nat` argument is
recursion fuel; the wrapper passes the text length, which always
suffices because every step consumes at least one character. -/
def subEntitiesAux (repl : String → Option TermVal) :
    Nat → List Char → Except PyErr (List Char)
  | _, [] => .ok []
  | 0, cs => .ok cs
  | fuel + 1, c :: rest =>
    if c = '&' then
      let run := rest.takeWhile (fun ch => !ch.isWhitespace)
      match lastIdxOf ';' run with
      | some i =>
          match repl (String.mk (run.take i)) with
          | some (.str s) =>
              (subEntitiesAux repl fuel (rest.drop (i + 1))).map
                (fun out => s.data ++ out)
          | some (.pair _ _) => .error (.typeError "expected str instance, list found")
          | none => .error (.typeError "expected str instance, NoneType found")
      | none => (subEntitiesAux repl fuel rest).map (fun out => c :: out)
    else (subEntitiesAux repl fuel rest).map (fun out => c :: out)

/-- The entity-substitution pass `re.sub(r"&[\S]*;", term_replacer, text)`. -/
def subEntities (repl : String → Option TermVal) (text : String) :
    Except PyErr String :=
  (subEntitiesAux repl text.data.length text.data).map String.mk

/-- Python `s.split()`: split on whitespace runs, dropping empty pieces. -/
def pySplitWs (s : String) : List String :=
  (s.split (fun c => c.isWhitespace)).filter (fun t => t ≠ "")

/-- Python `s[1:-2]`. -/
def slice1m2 (s : String) : String :=
  String.mk ((s.data.drop 1).take (s.data.length - 3))

/-- One manual declaration of the manuals stage of `load_terms`, starting
from the rendered text `item`: `key = item.split()[0]` (an `IndexError`
on an all-whitespace item), the remainder has every occurrence of `key`
removed and is stripped; items whose remainder does not start with an
apostrophe are skipped; otherwise the remainder is sliced `[1:-2]`,
stripped, entity-substituted with `term_replacer`, and stored under
`key`. -/
def processManualItem (docu_global : DocuGlobal) (links : Links)
    (base_url : String) (terms : Terms) (item : String) :
    Except PyErr Terms :=
  match pySplitWs item with
  | [] => .error .indexError
  | key :: _ =>
      let text := (item.replace key "").trim
      if text.startsWith sq then
        match subEntities (term_replacer docu_global links terms base_url)
            ((slice1m2 text).trim) with
        | .ok r => .ok (dinsert terms key (.str r))
        | .error e => .error e
      else .ok terms

/-- One line of the special-characters stage: entity name plus an
embedded `<!--(.*)-->` comment naming a Unicode character; a failing
`unicodedata.lookup` (modelled by the parameter `ulookup`) is skipped. -/
def parseEntLine (ulookup : String → Option String) (m : Terms)
    (line : String) : Terms :=
  match findEntityName line with
  | none => m
  | some name =>
      match greedyAnyCap "<!--".data "-->".data line.data with
      | some cap =>
          match ulookup (String.mk cap).trim with
          | some ch => dinsert m name (.str ch)
          | none => m
      | none => m

/-- One line of the group-code stage: entity name plus `<classname>` and
`<type>` captures, both read with `re.findall(...)[0]` and hence an
`IndexError` when absent; stores the `[classname, typename]` pair. -/
def parseGroupLine (m : Terms) (line : String) : Except PyErr Terms :=
  match findEntityName line with
  | none => .ok m
  | some name =>
      match lazyCap "<classname>".data "</classname>".data line.data,
            lazyCap "<type>".data "</type>".data line.data with
      | some cls, some ty =>
          .ok (dinsert m name (.pair (String.mk cls) (String.mk ty)))
      | _, _ => .error .indexError

/-- Warning printed when `build_variables.ent` is missing. -/
def warnVariableTerms : String := "WARNING: No file found for defining variable terms."

/-- Warning printed when `terms_global.ent` is missing. -/
def warnGlobalTerms : String := "WARNING: No file found for defining global terms."

/-- Warning printed when `manuals.ent` is missing. -/
def warnManualTerms : String := "WARNING: No file found for defining terms."

/-- Warning printed when `ansys.groupcodes.commands.ent` is missing. -/
def warnGroupCodes : String := "WARNING: No entitiy directory."

/-- The result of `load_terms` together with the warnings it printed. -/
structure LoadTermsResult where
  terms : Terms
  version_variables : Autogenerateddirectory
  warnings : List String
deriving DecidableEq, Repr

/-- `load_terms(term_path, docu_global, links, fcache, ...)`.  Each
optional input file is passed as `Option` content (`none` = the
`is_file()` / `is_dir()` check failed).  `manualItems` carries the
manual declarations already rendered by `ast.Element(...).to_rst(links,
base_url, fcache)` — that renderer lives in the `ast_tree` module, not
among the sources at hand, so its per-declaration output is taken as
input here.  The stages run in source order: variable terms (with the
hard-coded `"23.2"` fallback when the file is missing), construction of
the version variables, file-sourced global terms, the unconditional
hand-coded constants, the manuals stage, special characters and group
codes; each missing optional file appends its warning instead of
contributing. -/
def load_terms (docu_global : DocuGlobal) (links : Links)
    (variableFile globalFile : Option (List String))
    (manualItems : Option (List String))
    (entFiles : Option (List (List String)))
    (groupFile : Option (List String))
    (ulookup : String → Option String) :
    Except PyErr LoadTermsResult :=
  let s1 : Terms × List String :=
    match variableFile with
    | some lines => (lines.foldl parseVariableLine [], [])
    | none => ([("ansys_internal_version", .str "23.2")], [warnVariableTerms])
  match mkVersionVariables s1.1 with
  | .error e => .error e
  | .ok vv =>
    let base_url := vv.base_url
    let s2 : Terms × List String :=
      match globalFile with
      | some lines => (lines.foldl parseGlobalLine s1.1, s1.2)
      | none => (s1.1, s1.2 ++ [warnGlobalTerms])
    let t3 := hardcodedTerms s2.1
    let s4 : Except PyErr (Terms × List String) :=
      match manualItems with
      | some items =>
          match items.foldlM
              (fun t item => processManualItem docu_global links base_url t item)
              t3 with
          | .error e => .error e
          | .ok t => .ok (t, s2.2)
      | none => .ok (t3, s2.2 ++ [warnManualTerms])
    match s4 with
    | .error e => .error e
    | .ok (t4, w4) =>
      let t5 :=
        match entFiles with
        | some fss => fss.foldl (fun t lines => lines.foldl (parseEntLine ulookup) t) t4
        | none => t4
      match groupFile with
      | some lines =>
          match lines.foldlM parseGroupLine t5 with
          | .error e => .error e
          | .ok t6 => .ok ⟨t6, vv, w4⟩
      | none => .ok ⟨t5, vv, w4 ++ [warnGroupCodes]⟩

/-! ## writer.load_commands -/

/-- One reference-entry XML file as seen by the classification loop of
`load_commands`: the command name and the reference-class string
`str(refnamediv.get_children_by_type("Refclass")[0])`.  Files for which
`get_refentry` returns an empty list never reach the loop, so the input
is the list of reference entries in scan order. -/
structure RefEntry where
  name : String
  ref : String
deriving DecidableEq, Repr

/-- A command object of the extractor, restricted to the attributes the
classification writes: `group` (unset on construction) and `is_archived`
(false on construction). -/
structure Command where
  name : String
  ref : String
  group : Option TermVal
  is_archived : Bool
deriving DecidableEq, Repr

/-- The freshly constructed `ast.XMLCommand` before classification. -/
def initialCommand (e : RefEntry) : Command :=
  { name := e.name, ref := e.ref, group := none, is_archived := false }

/-- Modelled from the spec: the regex patterns of
`pyconverter.xml2py.utils.regex_pattern` (`get_group`, `get_classname`,
`get_typename_1opt`, `get_typename_2opt`) are not among the sources at
hand; the spec only says the reference-class string either matches a
"group code" pattern or is parsed into one or two class-name tokens and
a type-name token (the two-option pattern picking the first-listed
module).  The four `re.findall` results are therefore carried as
abstract functions from the reference-class string to match lists. -/
structure RefPatterns where
  get_group : String → List String
  get_classname : String → List String
  get_typename_1opt : String → List String
  get_typename_2opt : String → List String

/-- The per-entry body of the `meta_only == False` classification in
`load_commands`: the command is appended to `xml_commands` first; then,
if the group-code pattern matches, the `"xtycadimport"` group is logged
and skipped with `continue` (leaving the appended command unmodified)
while any other group code sets `command.group = terms[group[0]]`
(a `KeyError` when absent); otherwise `command.group` is set from the
class-name and type-name matches (each `[0]` an `IndexError` when the
match list is empty) and `command.is_archived = True`. -/
def classifyCommand (terms : Terms) (pats : RefPatterns) (e : RefEntry) :
    Except PyErr Command :=
  let c0 := initialCommand e
  match pats.get_group e.ref with
  | g :: _ =>
      if g = "xtycadimport" then .ok c0
      else
        match dget? terms g with
        | some v => .ok { c0 with group := some v }
        | none => .error (.keyError g)
  | [] =>
      match (if 1 < (pats.get_classname e.ref).length
             then pats.get_typename_2opt e.ref
             else pats.get_typename_1opt e.ref) with
      | [] => .error .indexError
      | ty :: _ =>
          match pats.get_classname e.ref with
          | [] => .error .indexError
          | cls :: _ =>
              .ok { c0 with group := some (.pair cls ty), is_archived := true }

/-- `load_commands(xml_path, meta_only)`: every reference entry yields a
command appended to `xml_commands` (classified unless `meta_only`), and
the function returns `{cmd.name: cmd for cmd in xml_commands}`, i.e. the
commands keyed by name in scan order. -/
def load_commands (meta_only : Bool) (terms : Terms) (pats : RefPatterns)
    (entries : List RefEntry) : Except PyErr (List (String × Command)) :=
  entries.foldlM (fun m e =>
    (if meta_only then .ok (initialCommand e) else classifyCommand terms pats e).map
      (fun c => dinsert m c.name c)) []

/-! ## Derived predicates and fixtures used by the statements -/

mutual
/-- `produces x k`: some node in the tree rooted at `x` (itself included)
carries a `targetptr` attribute equal to `k` and has a direct element
child carrying an `href` attribute.  This is the claim-level description
of when `grab_links` records an entry under key `k`. -/
def produces : XItem → String → Bool
  | .txt _, _ => false
  | .el _ attrs _ cs, k =>
      ((dget? attrs "targetptr" == some k) &&
        cs.any (fun c => (XItem.get "href" c).isSome))
      || producesList cs k

/-- `produces` over a list of sibling subtrees. -/
def producesList : List XItem → String → Bool
  | [], _ => false
  | c :: rest, k => produces c k || producesList rest k
end

/-- The keys of an association map, in storage order. -/
def keysOf {α : Type} (m : List (String × α)) : List String := m.map Prod.fst

/-- A leaf element carrying only an `href` attribute. -/
def hrefLeaf (h : String) : XItem := .el "d" [("href", h)] "" []

/-- A link table whose root carries `targetptr="T"` while the only
`href` in its subtree sits on a grandchild, not on a direct child. -/
def exTree : XItem :=
  .el "map" [("targetptr", "T")] ""
    [.el "mid" [] "" [.el "leaf" [("href", "h.html")] "" []]]

/-- A docu_global table whose single entry has a `targetptr` that is
not a key of the (empty) links table. -/
def exDocuGlobal : DocuGlobal := [("manu", (some "doc", some "ptr", none))]

/-- The terms table of the spec's round-trip example. -/
def exTerms : Terms := [("me", TermVal.str "Ansys Mechanical")]

/-- The `term_replacer` closure over those fixture tables. -/
def exReplacer : String → Option TermVal :=
  term_replacer exDocuGlobal [] exTerms "u/"

/-! ## Association-map lemmas -/

theorem find?_map_replace {α : Type} (k k' : String) (v : α) (hkk : k' ≠ k) :
    ∀ l : List (String × α),
      (l.map (fun p => if p.1 = k then (k, v) else p)).find? (fun p => p.1 = k')
        = l.find? (fun p => p.1 = k')
  | [] => rfl
  | q :: l => by
      by_cases hq : q.1 = k
      · have h2 : ¬ (q.1 = k') := fun h => hkk (h.symm.trans hq)
        rw [List.map_cons, if_pos hq,
          List.find?_cons_of_neg _ (by simpa using fun h => hkk h.symm),
          List.find?_cons_of_neg _ (by simpa using h2),
          find?_map_replace k k' v hkk l]
      · by_cases hq' : q.1 = k'
        · rw [List.map_cons, if_neg hq,
            List.find?_cons_of_pos _ (by simpa using hq'),
            List.find?_cons_of_pos _ (by simpa using hq')]
        · rw [List.map_cons, if_neg hq,
            List.find?_cons_of_neg _ (by simpa using hq'),
            List.find?_cons_of_neg _ (by simpa using hq'),
            find?_map_replace k k' v hkk l]

theorem find?_map_replace_self {α : Type} (k : String) (v : α) :
    ∀ l : List (String × α), l.any (fun p => p.1 = k) = true →
      (l.map (fun p => if p.1 = k then (k, v) else p)).find? (fun p => p.1 = k)
        = some (k, v)
  | [], h => by simp at h
  | q :: l, h => by
      by_cases hq : q.1 = k
      · rw [List.map_cons, if_pos hq, List.find?_cons_of_pos _ (by simp)]
      · have hl : l.any (fun p => p.1 = k) = true := by simpa [hq] using h
        rw [List.map_cons, if_neg hq,
          List.find?_cons_of_neg _ (by simpa using hq),
          find?_map_replace_self k v l hl]

/-- Lookup after a dict write: the written key reads back the new value,
all other keys are unchanged. -/
theorem dget?_dinsert {α : Type} (k k' : String) (v : α) (m : List (String × α)) :
    dget? (dinsert m k v) k' = if k' = k then some v else dget? m k' := by
  unfold dinsert dget?
  by_cases hmem : m.any (fun p => p.1 = k)
  · rw [if_pos hmem]
    by_cases h : k' = k
    · subst h
      rw [if_pos rfl, find?_map_replace_self k' v m hmem]
      rfl
    · rw [if_neg h, find?_map_replace k k' v h m]
  · rw [if_neg hmem]
    have hnone : m.find? (fun p => decide (p.1 = k)) = none :=
      List.find?_eq_none.mpr (fun x hx hpx =>
        hmem (List.any_eq_true.mpr ⟨x, hx, hpx⟩))
    rw [List.find?_append]
    by_cases h : k' = k
    · subst h
      rw [if_pos rfl, hnone, List.find?_cons_of_pos _ (by simp)]
      rfl
    · rw [if_neg h,
        List.find?_cons_of_neg _ (by simpa using fun hh => h hh.symm)]
      simp

/-- Membership is lookup success. -/
theorem dmem_eq_isSome {α : Type} (k : String) :
    ∀ m : List (String × α), dmem m k = (dget? m k).isSome := by
  intro m
  induction m with
  | nil => rfl
  | cons p m ih =>
      by_cases hp : p.1 = k
      · have h2 : List.find? (fun q => decide (q.1 = k)) (p :: m) = some p :=
          List.find?_cons_of_pos _ (by simpa using hp)
        simp [dmem, dget?, h2, hp]
      · have h1 : dmem (p :: m) k = dmem m k := by simp [dmem, hp]
        have h3 : List.find? (fun q => decide (q.1 = k)) (p :: m)
            = List.find? (fun q => decide (q.1 = k)) m :=
          List.find?_cons_of_neg _ (by simpa using hp)
        have h2 : dget? (p :: m) k = dget? m k := by
          unfold dget?
          rw [h3]
        rw [h1, h2, ih]

/-- Membership after a dict write. -/
theorem dmem_dinsert {α : Type} (k k' : String) (v : α) (m : List (String × α)) :
    dmem (dinsert m k v) k' = ((k' == k) || dmem m k') := by
  by_cases h : k' = k
  · simp [dmem_eq_isSome, dget?_dinsert, h]
  · simp [dmem_eq_isSome, dget?_dinsert, h]

/-! ## C1: the version setter and the derived URLs -/

/-- C1, counterexample: on the context built for version `"23.2"`,
assigning `version = "24.1"` leaves `cmd_base_url` at its old value, so
the claimed relation `cmd_base_url = base_url + "/ans_cmd/"` is false
after the assignment. -/
theorem C1_counterexample :
    (setVersion (mkAutogenerateddirectory "23.2") "24.1").cmd_base_url ≠
      (setVersion (mkAutogenerateddirectory "23.2") "24.1").base_url ++ "/ans_cmd/" := by
  decide

/-- C1 (amended): assigning `version = v` on any `Autogenerateddirectory`
updates `version` and recomputes `base_url`, which contains `"v" ++ v`;
but `cmd_base_url` is NOT recomputed — it keeps whatever value it had
before the assignment, so `cmd_base_url = base_url ++ "/ans_cmd/"` holds
afterwards only if the base URL did not change. -/
theorem C1_version_setter (ctx : Autogenerateddirectory) (v : String) :
    (setVersion ctx v).version = v
    ∧ (setVersion ctx v).base_url = baseUrlFor v
    ∧ (∃ p q, (setVersion ctx v).base_url = p ++ ("v" ++ v) ++ q)
    ∧ (setVersion ctx v).cmd_base_url = ctx.cmd_base_url := by
  refine ⟨rfl, rfl, ⟨"https://ansyshelp.ansys.com/Views/Secured/corp/", "/en/", ?_⟩, rfl⟩
  show baseUrlFor v = _
  have h : ("https://ansyshelp.ansys.com/Views/Secured/corp/" ++ "v" : String)
      = "https://ansyshelp.ansys.com/Views/Secured/corp/v" := by decide
  rw [← String.append_assoc, h]
  rfl

/-! ## C6 and C9: the graphics cache -/

theorem fcacheLoop_error :
    ∀ (files : List (String × Bool)) (acc : List (String × String)),
      (∃ f ∈ files, f.2 = false) →
      ∃ msg, fcacheLoop acc files = .error (.fileNotFound msg)
  | [], _, h => absurd h (by simp)
  | f :: rest, acc, h => by
      by_cases hf : f.2
      · rcases h with ⟨g, hg, hgf⟩
        rcases List.mem_cons.mp hg with rfl | hmem
        · exact absurd hf (by simp [hgf])
        · simpa [fcacheLoop, hf] using
            fcacheLoop_error rest (dinsert acc (withoutSuffix f.1) f.1) ⟨g, hmem, hgf⟩
      · exact ⟨"Unable to locate " ++ withoutSuffix f.1, by simp [fcacheLoop, hf]⟩

/-- C6: loading a graphics directory holding exactly `a.png` and `b.jpg`
yields the cache `{"a": "a.png", "b": "b.jpg"}` (base name without
extension to file name); and whenever the scan meets an entry that is
not a regular file, `load_fcache` raises `FileNotFoundError`. -/
theorem C6_load_fcache :
    load_fcache [("a.png", true), ("b.jpg", true)]
        = .ok [("a", "a.png"), ("b", "b.jpg")]
    ∧ ∀ files : List (String × Bool), (∃ f ∈ files, f.2 = false) →
        ∃ msg, load_fcache files = .error (.fileNotFound msg) :=
  ⟨rfl, fun files h => fcacheLoop_error files [] h⟩

/-- C6, witness: the error half applied to a scan whose second entry is
not a regular file. -/
theorem C6_load_fcache_witness :
    ∃ msg, load_fcache [("a.png", true), ("gone.png", false)]
      = .error (.fileNotFound msg) :=
  C6_load_fcache.2 [("a.png", true), ("gone.png", false)]
    ⟨("gone.png", false), by decide, rfl⟩

/-- C9: two scanned files whose names share a base name (differing only
in extension) collapse to a single cache entry whose value is the file
enumerated last; nothing is raised and nothing warns. -/
theorem C9_fcache_shadowing (n1 n2 : String)
    (h : withoutSuffix n1 = withoutSuffix n2) :
    load_fcache [(n1, true), (n2, true)] = .ok [(withoutSuffix n2, n2)] := by
  simp [load_fcache, fcacheLoop, dinsert, h]

/-- C9, witness: `a.png` then `a.jpg` leaves only `{"a": "a.jpg"}`. -/
theorem C9_fcache_shadowing_witness :
    load_fcache [("a.png", true), ("a.jpg", true)] = .ok [("a", "a.jpg")] := by
  have h := C9_fcache_shadowing "a.png" "a.jpg" (by decide)
  rw [h]
  rfl

/-! ## C2: the global-terms file overrides the fallback constant -/

theorem foldl_parseGlobalLine (k : String) :
    ∀ (lines : List String) (m : Terms),
      dget? (lines.foldl parseGlobalLine m) k
        = match lastWrite k lines with
          | some v => some v
          | none => dget? m k
  | [], _ => rfl
  | line :: rest, m => by
      rw [List.foldl_cons, foldl_parseGlobalLine k rest (parseGlobalLine m line)]
      cases hrest : lastWrite k rest with
      | some v => simp [lastWrite, hrest]
      | none =>
          cases hline : globalEntry line with
          | none => simp [lastWrite, hrest, hline, parseGlobalLine]
          | some kv =>
              obtain ⟨k', v⟩ := kv
              by_cases hk : k' = k
              · subst hk
                simp [lastWrite, hrest, hline, parseGlobalLine, dget?_dinsert]
              · have hk2 : ¬ (k = k') := fun h => hk h.symm
                simp [lastWrite, hrest, hline, parseGlobalLine, hk, hk2,
                  dget?_dinsert]

theorem globalContribution_lastWrite (k : String) (lines : List String) :
    dget? (globalContribution lines) k = lastWrite k lines := by
  unfold globalContribution
  rw [foldl_parseGlobalLine]
  cases lastWrite k lines <;> rfl

theorem hardcoded_preserves_version (m : Terms) :
    dget? (hardcodedTerms m) "ansys_internal_version"
      = dget? m "ansys_internal_version" := by
  simp [hardcodedTerms, dget?_dinsert]

/-- C2: the only entity key a hard-coded FALLBACK constant defines is
`ansys_internal_version` (written only when the variable-terms file is
missing, before the global-terms stage runs); when the file-sourced
global-terms file also defines that key, the file's (last) value wins in
the returned terms mapping. -/
theorem C2_file_overrides_fallback (dg : DocuGlobal) (links : Links)
    (lines : List String) (ul : String → Option String) (v : TermVal)
    (h : dget? (globalContribution lines) "ansys_internal_version" = some v) :
    ∃ r, load_terms dg links none (some lines) none none none ul = .ok r
      ∧ dget? r.terms "ansys_internal_version" = some v := by
  have hl : lastWrite "ansys_internal_version" lines = some v :=
    (globalContribution_lastWrite "ansys_internal_version" lines).symm.trans h
  have hmk : mkVersionVariables [("ansys_internal_version", .str "23.2")]
      = .ok (mkAutogenerateddirectory "23.2") := by
    unfold mkVersionVariables
    norm_num [dget?, List.find?, TermVal.format]
  refine ⟨⟨hardcodedTerms (lines.foldl parseGlobalLine
      [("ansys_internal_version", .str "23.2")]),
    mkAutogenerateddirectory "23.2",
    [warnVariableTerms, warnManualTerms, warnGroupCodes]⟩, ?_, ?_⟩
  · unfold load_terms
    dsimp only
    rw [hmk]
    rfl
  · dsimp only
    rw [hardcoded_preserves_version, foldl_parseGlobalLine, hl]

/-- C2, witness: a global-terms file declaring
`<!ENTITY ansys_internal_version '24.1'>` overrides the `"23.2"`
fallback in the returned mapping. -/
theorem C2_file_overrides_fallback_witness :
    ∃ r, load_terms [] [] none
        (some ["<!ENTITY ansys_internal_version " ++ sq ++ "24.1" ++ sq ++ ">"])
        none none none (fun _ => none) = .ok r
      ∧ dget? r.terms "ansys_internal_version" = some (.str "24.1") :=
  C2_file_overrides_fallback [] []
    ["<!ENTITY ansys_internal_version " ++ sq ++ "24.1" ++ sq ++ ">"]
    (fun _ => none) (.str "24.1") (by rfl)

/-! ## C5: missing optional input files -/

/-- C5, counterexample: `load_docu_global` opens its file with no
existence check, so a missing `docu_global.ent` raises
`FileNotFoundError` instead of warning and contributing nothing. -/
theorem C5_counterexample :
    load_docu_global none = .error (.fileNotFound "docu_global.ent") := rfl

/-- C5 (amended): the four optional files read by `load_terms`
(variable terms, global terms, manuals, group codes) degrade gracefully:
with all four missing — each `is_file()` check failing — the function
returns normally, its terms table holding only the hard-coded fallback
version entry and the hand-coded constants, and prints the four
warnings, one per missing file, raising nothing.  The docu_global
entities file is NOT handled that way: `load_docu_global` raises
`FileNotFoundError` when it is missing, with no warning and no result. -/
theorem C5_missing_files :
    load_docu_global none = .error (.fileNotFound "docu_global.ent")
    ∧ (∀ (dg : DocuGlobal) (links : Links) (ul : String → Option String),
        load_terms dg links none none none none none ul
          = .ok ⟨hardcodedTerms [("ansys_internal_version", .str "23.2")],
                 mkAutogenerateddirectory "23.2",
                 [warnVariableTerms, warnGlobalTerms, warnManualTerms,
                  warnGroupCodes]⟩) := by
  have hmk : mkVersionVariables [("ansys_internal_version", TermVal.str "23.2")]
      = .ok (mkAutogenerateddirectory "23.2") := rfl
  refine ⟨rfl, fun dg links ul => ?_⟩
  unfold load_terms
  dsimp only
  rw [hmk]
  rfl

/-! ## C3: entity substitution in the manuals stage -/

/-- C3, counterexample: `&manu;` resolves through `docu_global` to a
`targetptr` that is absent from `links`; `term_replacer` then returns
Python `None` and `re.sub` raises `TypeError` — the reference is NOT
left verbatim and an error IS raised. -/
theorem C3_counterexample :
    subEntities exReplacer "see &manu; now"
      = .error (.typeError "expected str instance, NoneType found")
    ∧ subEntities exReplacer "see &manu; now" ≠ .ok "see &manu; now" := by
  have h1 : subEntities exReplacer "see &manu; now"
      = .error (.typeError "expected str instance, NoneType found") := rfl
  exact ⟨h1, fun hc => by rw [h1] at hc; exact Except.noConfusion hc⟩

/-- C3 (amended): entity references resolve as claimed for terms outside
`docu_global` — known terms are substituted, unknown ones left verbatim
(cases 1 and 2, and the concrete `&me;` / `&unknown;` round trips) — and
a `docu_global` entry whose `targetptr` is a `links` key becomes a
formatted cross-link (case 3); but a `docu_global` entry whose
`targetptr` is `None` or not a `links` key makes `term_replacer` return
`None` (cases 4 and 5), which `re.sub` rejects with a `TypeError`
rather than leaving the reference verbatim. -/
theorem C3_entity_resolution :
    (∀ (dg : DocuGlobal) (links : Links) (terms : Terms) (bu term : String)
        (v : TermVal), dmem dg term = false → dget? terms term = some v →
        term_replacer dg links terms bu term = some v)
    ∧ (∀ (dg : DocuGlobal) (links : Links) (terms : Terms) (bu term : String),
        dmem dg term = false → dget? terms term = none →
        term_replacer dg links terms bu term
          = some (.str ("&" ++ term ++ ";")))
    ∧ (∀ (dg : DocuGlobal) (links : Links) (terms : Terms)
        (bu term : String) (td : Option String) (tp : String)
        (ct : Option String) (rn rtl href tx : String),
        dget? dg term = some (td, some tp, ct) →
        dget? links tp = some (rn, rtl, href, tx) →
        term_replacer dg links terms bu term
          = some (.str ("`" ++ citeText terms ct rtl ++ " <" ++ bu ++ rn
              ++ "/" ++ href ++ ">`_")))
    ∧ (∀ (dg : DocuGlobal) (links : Links) (terms : Terms)
        (bu term : String) (td ct : Option String),
        dget? dg term = some (td, none, ct) →
        term_replacer dg links terms bu term = none)
    ∧ (∀ (dg : DocuGlobal) (links : Links) (terms : Terms)
        (bu term : String) (td : Option String) (tp : String)
        (ct : Option String),
        dget? dg term = some (td, some tp, ct) → dget? links tp = none →
        term_replacer dg links terms bu term = none)
    ∧ subEntities exReplacer "x &me; y" = .ok "x Ansys Mechanical y"
    ∧ subEntities exReplacer "&unknown; stays" = .ok "&unknown; stays" := by
  refine ⟨?_, ?_, ?_, ?_, ?_, rfl, rfl⟩
  · intro dg links terms bu term v hdg ht
    have h2 : (dget? dg term).isSome = false :=
      (dmem_eq_isSome term dg).symm.trans hdg
    have hdgn : dget? dg term = none := by
      cases hx : dget? dg term
      · rfl
      · rw [hx] at h2; simp at h2
    simp [term_replacer, hdgn, ht]
  · intro dg links terms bu term hdg ht
    have h2 : (dget? dg term).isSome = false :=
      (dmem_eq_isSome term dg).symm.trans hdg
    have hdgn : dget? dg term = none := by
      cases hx : dget? dg term
      · rfl
      · rw [hx] at h2; simp at h2
    simp [term_replacer, hdgn, ht]
  · intro dg links terms bu term td tp ct rn rtl href tx h1 h2
    simp [term_replacer, h1, h2, String.append_assoc]
  · intro dg links terms bu term td ct h1
    simp [term_replacer, h1]
  · intro dg links terms bu term td tp ct h1 h2
    simp [term_replacer, h1, h2]

/-- C3, witness: the terms-table case applied to the round-trip
fixture, substituting `&me;`. -/
theorem C3_entity_resolution_witness :
    term_replacer exDocuGlobal [] exTerms "u/" "me"
      = some (.str "Ansys Mechanical") :=
  C3_entity_resolution.1 exDocuGlobal [] exTerms "u/" "me"
    (.str "Ansys Mechanical") rfl rfl

/-! ## C4 and C8: which nodes produce link entries -/

theorem str_beq_symm (a b : String) : (a == b) = (b == a) := by
  by_cases h : a = b
  · subst h; rfl
  · rw [Bool.eq_iff_iff]
    simp only [beq_iff_eq]
    exact eq_comm

/-- Key membership after the whole traversal: `grab_links` records key
`k` exactly when the accumulator already had it or some node of the tree
has `targetptr = k` together with a direct element child bearing an
`href` attribute. -/
theorem grab_links_mem (rn rt : String) :
    ∀ (x : XItem) (acc : Links) (k : String),
      dmem (grab_links rn rt x acc) k = (dmem acc k || produces x k) := by
  refine grab_links.induct rn rt
    (fun x acc => ∀ k,
      dmem (grab_links rn rt x acc) k = (dmem acc k || produces x k))
    (fun parent items acc => ∀ k,
      dmem (grabChildren rn rt parent items acc) k
        = (dmem acc k || (producesList items k
            || ((XItem.get "targetptr" parent == some k)
                && items.any (fun c => (XItem.get "href" c).isSome)))))
    ?_ ?_ ?_ ?_ ?_
  · intro s acc k
    simp [grab_links, produces]
  · intro t a s cs acc ih k
    have h := ih k
    rw [show grab_links rn rt (.el t a s cs) acc
        = grabChildren rn rt (.el t a s cs) cs acc from rfl, h]
    simp only [produces, XItem.get]
    congr 1
    exact Bool.or_comm _ _
  · intro parent acc k
    simp [grabChildren, producesList]
  · intro parent acc rest s ih k
    have h := ih k
    simp [grabChildren, producesList, produces, XItem.get, h]
  · intro parent acc rest tag attrs st cs
    intro acc1 acc2 ih1 ih2 k
    have e2 : acc2 = (match dget? attrs "href", XItem.get "targetptr" parent with
        | some href, some tp => dinsert acc1 tp (rn, rt, href, ttlText parent)
        | _, _ => acc1) := rfl
    have e1 : acc1 = if cs.isEmpty then acc
        else grab_links rn rt (.el tag attrs st cs) acc := rfl
    rw [show grabChildren rn rt parent (.el tag attrs st cs :: rest) acc
        = grabChildren rn rt parent rest acc2 from rfl, ih2 k, e2, e1]
    have hacc1 : dmem (if cs.isEmpty then acc
        else grab_links rn rt (.el tag attrs st cs) acc) k
        = (dmem acc k || produces (.el tag attrs st cs) k) := by
      by_cases hcs : cs.isEmpty
      · have hnil : cs = [] := List.isEmpty_iff.mp hcs
        subst hnil
        simp [produces, producesList]
      · rw [if_neg hcs]
        exact ih1 k
    cases hhref : dget? attrs "href" with
    | none =>
        simp only [producesList, List.any_cons, XItem.get, hhref,
          Option.isSome_none, Bool.false_or, hacc1]
        generalize dmem acc k = A
        generalize produces (XItem.el tag attrs st cs) k = P
        generalize producesList rest k = L
        generalize (XItem.get "targetptr" parent == some k) = T
        generalize rest.any (fun c => (XItem.get "href" c).isSome) = S
        cases A <;> cases P <;> cases L <;> cases T <;> cases S <;> rfl
    | some href =>
        cases htp : XItem.get "targetptr" parent with
        | none =>
            simp only [producesList, List.any_cons, XItem.get, hhref, htp,
              Option.isSome_some, hacc1]
            generalize dmem acc k = A
            generalize produces (XItem.el tag attrs st cs) k = P
            generalize producesList rest k = L
            generalize rest.any (fun c => (XItem.get "href" c).isSome) = S
            cases A <;> cases P <;> cases L <;> cases S <;> rfl
        | some tp =>
            simp only [producesList, List.any_cons, XItem.get, hhref, htp,
              Option.isSome_some, hacc1, dmem_dinsert]
            have hbeq : (some tp == some k) = (tp == k) := by
              rw [Bool.eq_iff_iff]
              simp
            rw [hbeq, str_beq_symm k tp]
            generalize (tp == k) = T
            generalize dmem acc k = A
            generalize produces (XItem.el tag attrs st cs) k = P
            generalize producesList rest k = L
            generalize rest.any (fun c => (XItem.get "href" c).isSome) = S
            cases A <;> cases P <;> cases L <;> cases T <;> cases S <;> rfl

theorem keysOf_dinsert {α : Type} (m : List (String × α)) (k : String) (v : α) :
    keysOf (dinsert m k v) = if dmem m k then keysOf m else keysOf m ++ [k] := by
  unfold dinsert dmem keysOf
  by_cases hmem : m.any (fun p => p.1 = k)
  · rw [if_pos hmem, if_pos hmem, List.map_map]
    refine List.map_congr_left (fun p _ => ?_)
    by_cases hp : p.1 = k
    · simp [hp]
    · simp [hp]
  · rw [if_neg hmem, if_neg hmem]
    simp

theorem keysOf_dinsert_nodup {α : Type} (m : List (String × α)) (k : String)
    (v : α) (h : (keysOf m).Nodup) : (keysOf (dinsert m k v)).Nodup := by
  rw [keysOf_dinsert]
  by_cases hmem : dmem m k
  · rw [if_pos hmem]; exact h
  · rw [if_neg hmem]
    have hk : k ∉ keysOf m := by
      intro hin
      rcases List.mem_map.mp hin with ⟨p, hp, hpk⟩
      exact hmem (List.any_eq_true.mpr ⟨p, hp, by simpa using hpk⟩)
    simp [List.nodup_append, h, hk]

/-- The traversal preserves uniqueness of recorded keys (a Python dict
holds one value per key). -/
theorem grab_links_nodup (rn rt : String) :
    ∀ (x : XItem) (acc : Links),
      (keysOf acc).Nodup → (keysOf (grab_links rn rt x acc)).Nodup := by
  refine grab_links.induct rn rt
    (fun x acc => (keysOf acc).Nodup → (keysOf (grab_links rn rt x acc)).Nodup)
    (fun parent items acc =>
      (keysOf acc).Nodup → (keysOf (grabChildren rn rt parent items acc)).Nodup)
    ?_ ?_ ?_ ?_ ?_
  · intro s acc h
    simpa [grab_links] using h
  · intro t a s cs acc ih h
    exact ih h
  · intro parent acc h
    simpa [grabChildren] using h
  · intro parent acc rest s ih h
    exact ih h
  · intro parent acc rest tag attrs st cs
    intro acc1 acc2 ih1 ih2 h
    have hacc1 : (keysOf acc1).Nodup := by
      show (keysOf (if cs.isEmpty then acc
          else grab_links rn rt (.el tag attrs st cs) acc)).Nodup
      by_cases hcs : cs.isEmpty
      · rw [if_pos hcs]; exact h
      · rw [if_neg hcs]; exact ih1 h
    refine ih2 ?_
    show (keysOf (match dget? attrs "href", XItem.get "targetptr" parent with
        | some href, some tp => dinsert acc1 tp (rn, rt, href, ttlText parent)
        | _, _ => acc1)).Nodup
    cases hhref : dget? attrs "href" with
    | none =>
        cases htp : XItem.get "targetptr" parent <;> simp [hhref, htp, hacc1]
    | some href =>
        cases htp : XItem.get "targetptr" parent with
        | none => simpa [hhref, htp] using hacc1
        | some tp =>
            simpa [hhref, htp] using
              keysOf_dinsert_nodup acc1 tp (rn, rt, href, ttlText parent) hacc1

/-- C4, counterexample: `exTree`'s root has `targetptr="T"` and an
`href` in its subtree (on a grandchild), yet `load_links`'s recursion
records NO entry at all — the claimed "exactly one entry keyed by that
target-pointer" does not exist, because `grab_links` reads `targetptr`
from the parent of the `href`-bearing node only. -/
theorem C4_counterexample :
    XItem.get "targetptr" exTree = some "T"
    ∧ grab_links "rn" "rt" exTree [] = []
    ∧ dget? (grab_links "rn" "rt" exTree []) "T" = none
    ∧ load_links [("f.db", some exTree)] = .ok [] :=
  ⟨rfl, rfl, rfl, rfl⟩

/-- C4 (amended): a key appears in the mapping built by the `grab_links`
recursion exactly when some node of the tree carries that
target-pointer value AND has a DIRECT element child bearing an `href`
attribute (an `href` deeper in the subtree does not count); the mapping
never holds two entries for one key. -/
theorem C4_link_entries (rn rt : String) (x : XItem) (k : String) :
    dmem (grab_links rn rt x []) k = produces x k
    ∧ (keysOf (grab_links rn rt x [])).Nodup := by
  constructor
  · have h := grab_links_mem rn rt x [] k
    simpa [dmem] using h
  · exact grab_links_nodup rn rt x [] (by simp [keysOf])

theorem dinsert_single_overwrite (k : String) (v w : LinkVal) :
    dinsert [(k, v)] k w = [(k, w)] := by
  simp [dinsert]

theorem foldl_dinsert_lastD (rn rt k : String) :
    ∀ (hs : List String) (h0 : String),
      hs.foldl (fun a h => dinsert a k (rn, rt, h, "")) [(k, (rn, rt, h0, ""))]
        = [(k, (rn, rt, hs.getLastD h0, ""))]
  | [], _ => rfl
  | h1 :: hs, h0 => by
      rw [List.foldl_cons, dinsert_single_overwrite,
        foldl_dinsert_lastD rn rt k hs h1, List.getLastD_cons]

theorem grabChildren_hrefLeaves (rn rt k : String) (P : XItem)
    (hP : XItem.get "targetptr" P = some k) (hT : ttlText P = "") :
    ∀ (hs : List String) (acc : Links),
      grabChildren rn rt P (hs.map hrefLeaf) acc
        = hs.foldl (fun a h => dinsert a k (rn, rt, h, "")) acc
  | [], _ => rfl
  | h1 :: hs, acc => by
      rw [List.map_cons,
        show grabChildren rn rt P (hrefLeaf h1 :: hs.map hrefLeaf) acc
          = grabChildren rn rt P (hs.map hrefLeaf)
              (match dget? [("href", h1)] "href", XItem.get "targetptr" P with
               | some href, some tp => dinsert acc tp (rn, rt, href, ttlText P)
               | _, _ => acc) from rfl,
        grabChildren_hrefLeaves rn rt k P hP hT hs _, List.foldl_cons]
      rw [show dget? [("href", h1)] "href" = some h1 from rfl, hP, hT]

/-- C8: the recorded key comes from the node whose children are being
iterated (the parent), not from the `href`-bearing node itself.  A
parent with `targetptr = k` over any non-empty row of `href` leaves
yields exactly one tuple under `k`, holding the LAST leaf's `href`
(earlier ones silently overwritten); and a child carrying both
`targetptr` and `href` under a parent with neither records nothing. -/
theorem C8_parent_key_last_wins (rn rt k st h0 : String) (hs : List String) :
    grab_links rn rt
        (.el "map" [("targetptr", k)] st ((h0 :: hs).map hrefLeaf)) []
      = [(k, (rn, rt, (h0 :: hs).getLastD "", ""))]
    ∧ (∀ tp2 href2, grab_links rn rt
        (.el "m" [] "" [.el "c" [("targetptr", tp2), ("href", href2)] "" []]) []
          = []) := by
  constructor
  · have hP : XItem.get "targetptr"
        (XItem.el "map" [("targetptr", k)] st ((h0 :: hs).map hrefLeaf))
          = some k := rfl
    have hT : ttlText
        (XItem.el "map" [("targetptr", k)] st ((h0 :: hs).map hrefLeaf))
          = "" := rfl
    rw [show grab_links rn rt
          (XItem.el "map" [("targetptr", k)] st ((h0 :: hs).map hrefLeaf)) []
        = grabChildren rn rt
            (XItem.el "map" [("targetptr", k)] st ((h0 :: hs).map hrefLeaf))
            ((h0 :: hs).map hrefLeaf) [] from rfl,
      grabChildren_hrefLeaves rn rt k _ hP hT (h0 :: hs) [],
      List.foldl_cons,
      show dinsert ([] : Links) k (rn, rt, h0, "") = [(k, (rn, rt, h0, ""))]
        from rfl,
      foldl_dinsert_lastD rn rt k hs h0, List.getLastD_cons]
  · intro tp2 href2
    rfl

/-! ## C7 and C10: command classification -/

/-- C7: with `meta_only = False`, a reference entry whose class string
matches the group-code pattern gets `group = terms[group[0]]` — except
the `"xtycadimport"` group, which is skipped by `continue` and left
unclassified — while an entry with no group-code match gets its group
from the class-name and type-name tokens and `is_archived = True`. -/
theorem C7_classification (terms : Terms) (pats : RefPatterns) (e : RefEntry) :
    (∀ (g : String) (gs : List String) (v : TermVal),
        pats.get_group e.ref = g :: gs → g ≠ "xtycadimport" →
        dget? terms g = some v →
        load_commands false terms pats [e]
          = .ok [(e.name, { initialCommand e with group := some v })])
    ∧ (∀ gs : List String, pats.get_group e.ref = "xtycadimport" :: gs →
        load_commands false terms pats [e] = .ok [(e.name, initialCommand e)])
    ∧ (∀ (c : String) (cls : List String) (ty : String) (tys : List String),
        pats.get_group e.ref = [] →
        pats.get_classname e.ref = c :: cls →
        (if 1 < (pats.get_classname e.ref).length
         then pats.get_typename_2opt e.ref
         else pats.get_typename_1opt e.ref) = ty :: tys →
        load_commands false terms pats [e]
          = .ok [(e.name, { initialCommand e with
              group := some (.pair c ty), is_archived := true })]) := by
  refine ⟨?_, ?_, ?_⟩
  · intro g gs v hg hne hv
    simp [load_commands, classifyCommand, hg, hne, hv, initialCommand, dinsert,
      Except.map]
  · intro gs hg
    simp [load_commands, classifyCommand, hg, initialCommand, dinsert,
      Except.map]
  · intro c cls ty tys hg hcls hty
    have hty2 : (if 0 < cls.length then pats.get_typename_2opt e.ref
        else pats.get_typename_1opt e.ref) = ty :: tys := by
      rw [hcls] at hty
      simpa using hty
    simp [load_commands, classifyCommand, hg, hcls, hty2, initialCommand,
      dinsert, Except.map]

/-- C7, witness: the group branch on a one-entry run, with a group code
that has a term-table entry. -/
theorem C7_classification_witness :
    load_commands false [("grp", TermVal.pair "apdl" "cmds")]
        ⟨fun _ => ["grp"], fun _ => [], fun _ => [], fun _ => []⟩
        [⟨"CMD1", "ref"⟩]
      = .ok [("CMD1", { initialCommand ⟨"CMD1", "ref"⟩ with
          group := some (TermVal.pair "apdl" "cmds") })] :=
  (C7_classification [("grp", TermVal.pair "apdl" "cmds")]
      ⟨fun _ => ["grp"], fun _ => [], fun _ => [], fun _ => []⟩
      ⟨"CMD1", "ref"⟩).1 "grp" [] (TermVal.pair "apdl" "cmds")
    rfl (by decide) rfl

theorem classifyCommand_name (terms : Terms) (pats : RefPatterns)
    (e : RefEntry) (c : Command)
    (h : classifyCommand terms pats e = .ok c) : c.name = e.name := by
  unfold classifyCommand at h
  repeat' (split at h)
  all_goals
    first
      | exact Except.noConfusion h
      | (simp only [Except.ok.injEq] at h; subst h; rfl)

theorem foldlM_classify_fresh (terms : Terms) (pats : RefPatterns)
    (nm : String) :
    ∀ (post : List RefEntry) (m2 m : List (String × Command)),
      (∀ e2 ∈ post, e2.name ≠ nm) →
      List.foldlM (fun m e => (classifyCommand terms pats e).map
        (fun c => dinsert m c.name c)) m2 post = .ok m →
      dget? m nm = dget? m2 nm
  | [], m2, m, _, h => by
      rw [List.foldlM_nil] at h
      simp only [pure, Except.pure, Except.ok.injEq] at h
      subst h
      rfl
  | e2 :: rest, m2, m, hfresh, h => by
      rw [List.foldlM_cons] at h
      cases hc : classifyCommand terms pats e2 with
      | error err =>
          rw [hc] at h
          exact Except.noConfusion h
      | ok c =>
          rw [hc] at h
          have h2 : List.foldlM (fun m e => (classifyCommand terms pats e).map
              (fun c => dinsert m c.name c)) (dinsert m2 c.name c) rest
                = .ok m := h
          have hname := classifyCommand_name terms pats e2 c hc
          have hne : e2.name ≠ nm := hfresh e2 (by simp)
          have hkey : dget? (dinsert m2 c.name c) nm = dget? m2 nm := by
            rw [dget?_dinsert,
              if_neg (by rw [hname]; exact fun hh => hne hh.symm)]
          rw [foldlM_classify_fresh terms pats nm rest (dinsert m2 c.name c) m
              (fun x hx => hfresh x (List.mem_cons_of_mem e2 hx)) h2,
            hkey]

/-- C10: a command whose reference class matches the excluded
`"xtycadimport"` group code is appended to `xml_commands` BEFORE the
exclusion check runs, so the mapping returned by `load_commands` still
holds it under its name with `group` unset and `is_archived` false; the
`continue` skips only the group assignment. -/
theorem C10_excluded_command_kept (terms : Terms) (pats : RefPatterns)
    (pre post : List RefEntry) (e : RefEntry) (gs : List String)
    (hg : pats.get_group e.ref = "xtycadimport" :: gs)
    (hfresh : ∀ e2 ∈ post, e2.name ≠ e.name)
    (m : List (String × Command))
    (hok : load_commands false terms pats (pre ++ e :: post) = .ok m) :
    dget? m e.name = some (initialCommand e) := by
  replace hok : List.foldlM (fun m e => (classifyCommand terms pats e).map
      (fun c => dinsert m c.name c)) [] (pre ++ e :: post) = .ok m := hok
  rw [List.foldlM_append] at hok
  cases hpre : List.foldlM (fun m e => (classifyCommand terms pats e).map
      (fun c => dinsert m c.name c)) [] pre with
  | error err =>
      rw [hpre] at hok
      exact Except.noConfusion hok
  | ok mid =>
      rw [hpre] at hok
      have hok2 : List.foldlM (fun m e => (classifyCommand terms pats e).map
          (fun c => dinsert m c.name c)) mid (e :: post) = .ok m := hok
      rw [List.foldlM_cons] at hok2
      have hce : classifyCommand terms pats e = .ok (initialCommand e) := by
        unfold classifyCommand
        rw [hg]
        simp
      rw [hce] at hok2
      have hok3 : List.foldlM (fun m e => (classifyCommand terms pats e).map
          (fun c => dinsert m c.name c))
          (dinsert mid e.name (initialCommand e)) post = .ok m := hok2
      rw [foldlM_classify_fresh terms pats e.name post
          (dinsert mid e.name (initialCommand e)) m hfresh hok3,
        dget?_dinsert, if_pos rfl]

/-- C10, witness: an `xtycadimport`-classed entry between two ordinary
entries stays in the returned mapping, unclassified. -/
theorem C10_excluded_command_kept_witness :
    dget?
      [("A", { name := "A", ref := "ra", group := some (TermVal.pair "c" "t"), is_archived := true }),
        ("CAD", initialCommand ⟨"CAD", "rx"⟩),
        ("B", { name := "B", ref := "rb", group := some (TermVal.pair "c" "t"), is_archived := true })]
      "CAD"
      = some (initialCommand ⟨"CAD", "rx"⟩) :=
  C10_excluded_command_kept []
    ⟨fun r => if r = "rx" then ["xtycadimport"] else [],
      fun _ => ["c"], fun _ => ["t"], fun _ => ["t2"]⟩
    [⟨"A", "ra"⟩] [⟨"B", "rb"⟩] ⟨"CAD", "rx"⟩ []
    (by decide)
    (by
      intro e2 h2
      rw [List.mem_singleton] at h2
      subst h2
      decide)
    _ (by rfl)

end PyDita
